import Mathlib

/-!
Verification development for the `tf2_web_republisher_py` package. The
repository ships only a packaging manifest (`setup.py`); the transform
republishing core that the manifest's entry point is supposed to start is
reconstructed here from the written specification. Exact rational
arithmetic stands in for floating point, quaternions over `ℚ` model
rotations, and each component (transform graph store, chain resolver,
subscription registry, republish scheduler) is embedded as an executable
Lean definition.
-/

namespace TfWeb

/-- Modelled from the spec: a rigid-body translation, the
"translation" part of a TransformEdge (§3); components are exact
rationals in place of floating-point numbers. -/
structure Vec3 where
  x : ℚ
  y : ℚ
  z : ℚ
deriving DecidableEq

instance : Zero Vec3 := ⟨⟨0, 0, 0⟩⟩

instance : Add Vec3 := ⟨fun a b => ⟨a.x + b.x, a.y + b.y, a.z + b.z⟩⟩

instance : Neg Vec3 := ⟨fun a => ⟨-a.x, -a.y, -a.z⟩⟩

@[ext]
theorem Vec3.components_ext {a b : Vec3} (hx : a.x = b.x) (hy : a.y = b.y)
    (hz : a.z = b.z) : a = b := by
  cases a; cases b; simp_all

@[simp] theorem Vec3.add_x (a b : Vec3) : (a + b).x = a.x + b.x := rfl

@[simp] theorem Vec3.add_y (a b : Vec3) : (a + b).y = a.y + b.y := rfl

@[simp] theorem Vec3.add_z (a b : Vec3) : (a + b).z = a.z + b.z := rfl

@[simp] theorem Vec3.neg_x (a : Vec3) : (-a).x = -a.x := rfl

@[simp] theorem Vec3.neg_y (a : Vec3) : (-a).y = -a.y := rfl

@[simp] theorem Vec3.neg_z (a : Vec3) : (-a).z = -a.z := rfl

@[simp] theorem Vec3.zero_x : (0 : Vec3).x = 0 := rfl

@[simp] theorem Vec3.zero_y : (0 : Vec3).y = 0 := rfl

@[simp] theorem Vec3.zero_z : (0 : Vec3).z = 0 := rfl

instance : AddCommGroup Vec3 where
  add_assoc a b c := by ext <;> simp <;> ring
  zero_add a := by ext <;> simp
  add_zero a := by ext <;> simp
  add_comm a b := by ext <;> simp <;> ring
  neg_add_cancel a := by ext <;> simp
  nsmul := nsmulRec
  zsmul := zsmulRec

/-- Modelled from the spec: rotations are represented by quaternions over
`ℚ` (§4.2 "rotations compose via quaternion multiplication"); with exact
rational arithmetic the drift-normalization step is the identity and is
omitted. -/
abbrev Quat := Quaternion ℚ

instance : DecidableEq (Quaternion ℚ) := fun a b =>
  decidable_of_iff (a.re = b.re ∧ a.imI = b.imI ∧ a.imJ = b.imJ ∧ a.imK = b.imK)
    (QuaternionAlgebra.ext_iff.symm)

/-- Modelled from the spec: quaternion literal helper for the embedding. -/
def mkQuat (w xi yj zk : ℚ) : Quat := ⟨w, xi, yj, zk⟩

/-- Modelled from the spec: the embedding of a vector as a pure quaternion,
used to let a rotation quaternion act on a translation. -/
def Vec3.toQuat (v : Vec3) : Quat := ⟨0, v.x, v.y, v.z⟩

/-- Modelled from the spec: the action of a rotation quaternion on a vector
by conjugation, used when translations are carried into the ancestor
frame's coordinate basis during composition (§4.2). -/
def rotateVec (q : Quat) (v : Vec3) : Vec3 :=
  ⟨(q * v.toQuat * q⁻¹).imI, (q * v.toQuat * q⁻¹).imJ, (q * v.toQuat * q⁻¹).imK⟩

/-- Modelled from the spec: a rigid transform, translation plus rotation,
relating two frames (§3 TransformEdge and ResolvedTransform payload). -/
structure Transform where
  rot : Quat
  tr : Vec3
deriving DecidableEq

/-- Modelled from the spec: the identity transform (§4.2 edge case). -/
def Transform.identity : Transform := ⟨1, 0⟩

/-- Modelled from the spec: transform composition — rotations compose by
quaternion multiplication, translations add in the ancestor frame's basis
(§4.2 numeric composition). `a.compose b` applies `b` first, then `a`. -/
def Transform.compose (a b : Transform) : Transform :=
  ⟨a.rot * b.rot, a.tr + rotateVec a.rot b.tr⟩

/-- Modelled from the spec: transform inversion, used to traverse an edge
in the child-to-parent direction reversed (§4.2 "each edge traversable in
either direction by inverting translation+rotation"). -/
def Transform.inverse (t : Transform) : Transform :=
  ⟨t.rot⁻¹, -(rotateVec t.rot⁻¹ t.tr)⟩

@[simp] theorem Transform.compose_rot (a b : Transform) :
    (a.compose b).rot = a.rot * b.rot := rfl

@[simp] theorem Transform.compose_tr (a b : Transform) :
    (a.compose b).tr = a.tr + rotateVec a.rot b.tr := rfl

@[simp] theorem Transform.inverse_rot (t : Transform) :
    t.inverse.rot = t.rot⁻¹ := rfl

@[simp] theorem Transform.inverse_tr (t : Transform) :
    t.inverse.tr = -(rotateVec t.rot⁻¹ t.tr) := rfl

@[simp] theorem Transform.identity_rot : Transform.identity.rot = 1 := rfl

@[simp] theorem Transform.identity_tr : Transform.identity.tr = 0 := rfl

/-- Modelled from the spec: a TransformEdge, the directed relation
{parent frame, child frame, translation+rotation, timestamp} (§3). The
transform carries child-frame coordinates into parent-frame coordinates. -/
structure TransformEdge where
  parent : String
  child : String
  rot : Quat
  tr : Vec3
  stamp : ℚ
deriving DecidableEq

/-- Modelled from the spec: a GraphSnapshot, an immutable view of the
transform graph at a query timestamp (§3): one selected sample per
(parent, child) pair together with the query time `asOf`. -/
structure GraphSnapshot where
  asOf : ℚ
  edges : List TransformEdge
deriving DecidableEq

/-- Modelled from the spec: tie-break rule of the Chain Resolver — among
duplicate edges for the same frame pair, the most recent timestamp wins
(§4.2); on equal timestamps the earlier-listed edge is kept. -/
def pickLatest : List TransformEdge → Option TransformEdge
  | [] => none
  | e :: es =>
    match pickLatest es with
    | none => some e
    | some b => some (if b.stamp > e.stamp then b else e)

/-- Modelled from the spec: the unique parent edge of a frame in the
snapshot, following the spec's rooted-tree reading of the graph (§4.2):
each child frame has at most one parent edge, chosen by `pickLatest`. -/
def parentEdge (snap : GraphSnapshot) (f : String) : Option TransformEdge :=
  pickLatest (snap.edges.filter (fun e => e.child == f))

/-- Modelled from the spec: the root-path of a frame (§4.2 "both frames'
root-paths"), computed by repeatedly following parent edges; the `Nat`
fuel bounds the walk so that it terminates on malformed cyclic input. -/
def ancestorChain (snap : GraphSnapshot) : Nat → String → List String
  | 0, _ => []
  | n + 1, f =>
    f :: (match parentEdge snap f with
      | none => []
      | some e => ancestorChain snap n e.parent)

/-- Modelled from the spec: the frame reached from `f` after following
exactly `n` parent edges, when that many exist; the step-indexed view of
the root-path used to reason about the walk in `ancestorChain`. -/
def iterParent (snap : GraphSnapshot) : Nat → String → Option String
  | 0, f => some f
  | n + 1, f =>
    match parentEdge snap f with
    | none => none
    | some e => iterParent snap n e.parent

/-- Modelled from the spec: the list of edges crossed walking from frame
`f` up its root-path until the ancestor `c` is reached (§4.2), listed
deepest edge first; fuel-bounded like `ancestorChain`. -/
def chainEdgesTo (snap : GraphSnapshot) : Nat → String → String → List TransformEdge
  | 0, _, _ => []
  | n + 1, f, c =>
    if f = c then []
    else
      match parentEdge snap f with
      | none => []
      | some e => e :: chainEdgesTo snap n e.parent c

/-- Modelled from the spec: the walk fuel — one more than the number of
edges, enough to exhaust any acyclic parent chain in the snapshot. -/
def walkFuel (snap : GraphSnapshot) : Nat := snap.edges.length + 1

/-- Modelled from the spec: the lowest common ancestor of the two frames'
root-paths (§4.2) — the first frame on the source's root-path that also
lies on the target's root-path. -/
def lca (snap : GraphSnapshot) (a b : String) : Option String :=
  (ancestorChain snap (walkFuel snap) a).find?
    (fun x => (ancestorChain snap (walkFuel snap) b).contains x)

/-- Modelled from the spec: the net transform along a chain of edges
returned by `chainEdgesTo`, composing each child-to-parent edge transform
on the way up to the ancestor (§4.2). -/
def chainTransform : List TransformEdge → Transform
  | [] => Transform.identity
  | e :: es => (chainTransform es).compose ⟨e.rot, e.tr⟩

/-- Modelled from the spec: whether a frame appears anywhere in the
snapshot; a pair referencing a frame never seen resolves to the
`UnknownFrame` error (§7). -/
def frameKnown (snap : GraphSnapshot) (f : String) : Bool :=
  snap.edges.any (fun e => e.parent == f || e.child == f)

/-- Modelled from the spec: a ResolvedTransform — source and target frame,
composed translation+rotation, timestamp and staleness flag (§3). -/
structure ResolvedTransform where
  source : String
  target : String
  transform : Transform
  stamp : ℚ
  stale : Bool
deriving DecidableEq

/-- Modelled from the spec: result of the Chain Resolver —
`ResolvedTransform | NotConnected | each frame unknown` (§4.2). -/
inductive ResolveResult where
  | ok (r : ResolvedTransform)
  | unknownFrame (f : String)
  | notConnected
deriving DecidableEq

/-- Modelled from the spec: the composed transform through a common
ancestor `c` — forward edges from source-to-ancestor inverted, composed
with ancestor-to-target (§4.2). The result carries target-frame
coordinates into source-frame coordinates. -/
def resolveAt (snap : GraphSnapshot) (source target c : String) : Transform :=
  (Transform.inverse (chainTransform (chainEdgesTo snap (walkFuel snap) source c))).compose
    (chainTransform (chainEdgesTo snap (walkFuel snap) target c))

/-- Modelled from the spec: the Chain Resolver entry point
`resolve(snapshot, source, target)` (§4.2): identical frames yield the
identity transform at the query time; unknown frames and disconnected
components are reported as non-fatal per-pair errors; otherwise the chain
through the lowest common ancestor is composed. -/
def resolve (snap : GraphSnapshot) (source target : String) : ResolveResult :=
  if source = target then
    .ok ⟨source, target, Transform.identity, snap.asOf, false⟩
  else if frameKnown snap source = true then
    if frameKnown snap target = true then
      match lca snap source target with
      | none => .notConnected
      | some c => .ok ⟨source, target, resolveAt snap source target c, snap.asOf, false⟩
    else .unknownFrame target
  else .unknownFrame source

/-- Modelled from the spec: a scalar as delivered by the upstream feed,
which may carry the floating-point non-finite values NaN and ±Inf that
`ingest` must reject (§4.1 failure case); finite values are exact
rationals. -/
inductive FpValue where
  | fin (q : ℚ)
  | nan
  | posInf
  | negInf
deriving DecidableEq

/-- Modelled from the spec: finiteness test used by the `ingest`
validation of numeric components (§4.1). -/
def FpValue.isFinite : FpValue → Bool
  | .fin _ => true
  | _ => false

/-- Modelled from the spec: the rational value of a finite scalar;
non-finite scalars are never converted because `ingest` drops them. -/
def FpValue.toRat : FpValue → ℚ
  | .fin q => q
  | _ => 0

/-- Modelled from the spec: a TransformEdge as received from the upstream
transform feed (§6), before numeric validation: translation and rotation
components may be non-finite. -/
structure RawEdge where
  parent : String
  child : String
  tx : FpValue
  ty : FpValue
  tz : FpValue
  qw : FpValue
  qx : FpValue
  qy : FpValue
  qz : FpValue
  stamp : ℚ
deriving DecidableEq

/-- Modelled from the spec: the validation check of `ingest` — every
numeric component of the edge must be finite (§4.1). -/
def RawEdge.allFinite (e : RawEdge) : Bool :=
  e.tx.isFinite && e.ty.isFinite && e.tz.isFinite &&
    e.qw.isFinite && e.qx.isFinite && e.qy.isFinite && e.qz.isFinite

/-- Modelled from the spec: one stored history sample for a
(parent, child) key — the transform and its timestamp (§3, §4.1). -/
structure Sample where
  rot : Quat
  tr : Vec3
  stamp : ℚ
deriving DecidableEq

/-- Modelled from the spec: the error taxonomy entry recorded when
`ingest` drops an edge with non-finite numeric components (§7
`MalformedEdge`). -/
inductive StoreError where
  | malformedEdge (parent child : String)
deriving DecidableEq

/-- Modelled from the spec: the Transform Graph Store — bounded
time-ordered history per (parent, child) key, plus the log of recorded
non-fatal errors (§4.1, §7). Histories are kept in arrival order, oldest
first. -/
structure Store where
  cap : Nat
  hist : String × String → List Sample
  errors : List StoreError

/-- Modelled from the spec: appending one sample to a key's bounded
history (§4.1): out-of-order samples (timestamp not strictly beyond every
stored one) are rejected per policy (§3 invariant), and the oldest entry
is evicted when the per-edge history cap is reached. -/
def appendSample (cap : Nat) (h : List Sample) (s : Sample) : List Sample :=
  if h.all (fun x => x.stamp < s.stamp) then
    (if cap ≤ h.length then h.drop 1 else h) ++ [s]
  else h

/-- Modelled from the spec: `ingest(edge)` of the Transform Graph Store
(§4.1) — edges with non-finite numeric components are dropped and a
`MalformedEdge` error is recorded (non-fatal); valid edges are appended
to the bounded history for their (parent, child) key. -/
def ingest (st : Store) (e : RawEdge) : Store :=
  if e.allFinite = true then
    { st with
      hist := fun k =>
        if k = (e.parent, e.child) then
          appendSample st.cap (st.hist (e.parent, e.child))
            ⟨⟨e.qw.toRat, e.qx.toRat, e.qy.toRat, e.qz.toRat⟩,
              ⟨e.tx.toRat, e.ty.toRat, e.tz.toRat⟩, e.stamp⟩
        else st.hist k }
  else
    { st with errors := .malformedEdge e.parent e.child :: st.errors }

/-- Modelled from the spec: the empty store every process starts from
(§6: no persisted state), with a configured per-edge history cap. -/
def emptyStore (cap : Nat) : Store := ⟨cap, fun _ => [], []⟩

/-- Modelled from the spec: the store states reachable in one process
lifetime — the empty store followed by any sequence of `ingest`
operations. -/
inductive ReachableStore : Store → Prop
  | init (cap : Nat) : ReachableStore (emptyStore cap)
  | step (st : Store) (e : RawEdge) : ReachableStore st → ReachableStore (ingest st e)

/-- Modelled from the spec: the store invariant (§3) — for every
(parent, child) key, stored timestamps are strictly increasing in arrival
order. -/
def StoreInv (st : Store) : Prop :=
  ∀ k : String × String, (st.hist k).Pairwise (fun a b => a.stamp < b.stamp)

/-- Modelled from the spec: a Subscription — id, ordered frame pairs and
requested output rate (§3); the output format config carries no behavior
in this model and is omitted. -/
structure Subscription where
  id : Nat
  pairs : List (String × String)
  rate : ℚ
deriving DecidableEq

/-- Modelled from the spec: the scheduler's configured [min, max] rate
bound used to clamp a subscription's requested rate (§4.4). -/
structure SchedConfig where
  minRate : ℚ
  maxRate : ℚ
deriving DecidableEq

/-- Modelled from the spec: clamping a requested rate to the configured
[min, max] bound (§4.4). -/
def clampRate (cfg : SchedConfig) (r : ℚ) : ℚ :=
  max cfg.minRate (min cfg.maxRate r)

/-- Modelled from the spec: the rate at which the periodic timer is armed
when a subscription enters Active — the requested rate after clamping
(§4.4). -/
def armedRate (cfg : SchedConfig) (sub : Subscription) : ℚ :=
  clampRate cfg sub.rate

/-- Modelled from the spec: the periodic tick interval of an Active
subscription, the reciprocal of the armed (clamped) rate (§4.4). -/
def tickInterval (cfg : SchedConfig) (sub : Subscription) : ℚ :=
  1 / armedRate cfg sub

/-- Modelled from the spec: one emitted batch of results for a
subscription tick — the tick timestamp and the per-pair resolution
results handed to the output sink (§4.4, §6). -/
structure Batch where
  subId : Nat
  stamp : ℚ
  results : List ResolveResult
deriving DecidableEq

/-- Modelled from the spec: the scheduler loop for one subscription
(§4.4): each tick advances time by the tick period, takes a snapshot at
"now" via `snapAt`, resolves every pair, and emits the batch unless the
sink reported backpressure for that tick, in which case the tick's
output is dropped (never queued). `accepts` lists the sink's
accept/backpressure answer for each tick. -/
def runTicks (snapAt : ℚ → GraphSnapshot) (sub : Subscription) (period : ℚ) :
    ℚ → List Bool → List Batch
  | _, [] => []
  | t, accepted :: rest =>
    (if accepted then
      [⟨sub.id, t, sub.pairs.map (fun p => resolve (snapAt t) p.1 p.2)⟩]
    else []) ++ runTicks snapAt sub period (t + period) rest

/-- Modelled from the spec: a teardown side effect triggered by
cancelling a live subscription (§4.5 scheduler teardown). -/
inductive TeardownAction where
  | teardown (id : Nat)
deriving DecidableEq

/-- Modelled from the spec: the Subscription Registry — the table of
active subscriptions and the monotonic id counter that keeps ids unique
for the process lifetime (§4.3). -/
structure Registry where
  nextId : Nat
  subs : List Subscription
deriving DecidableEq

/-- Modelled from the spec: the registry a process starts with. -/
def initialRegistry : Registry := ⟨0, []⟩

/-- Modelled from the spec: `create(pairs, rate, config) -> subscriptionId`
(§4.3) — the next counter value becomes the new subscription's id and the
counter advances monotonically. -/
def createSub (reg : Registry) (pairs : List (String × String)) (rate : ℚ) :
    Registry × Nat :=
  ({ nextId := reg.nextId + 1, subs := reg.subs ++ [⟨reg.nextId, pairs, rate⟩] },
    reg.nextId)

/-- Modelled from the spec: `cancel(subscriptionId)` (§4.3) — removing the
subscription and returning its teardown side effects; cancelling an id
that is not active is a no-op that produces no teardown and no error. -/
def cancelSub (reg : Registry) (i : Nat) : Registry × List TeardownAction :=
  if reg.subs.any (fun s => s.id == i) then
    ({ reg with subs := reg.subs.filter (fun s => s.id != i) }, [.teardown i])
  else (reg, [])

/-- Modelled from the spec: one client-facing registry operation within a
process lifetime (§4.3 contract). -/
inductive RegistryOp where
  | create (pairs : List (String × String)) (rate : ℚ)
  | cancel (i : Nat)

/-- Modelled from the spec: running a sequence of registry operations,
collecting the subscription ids handed out by the `create` calls. -/
def runOps : Registry → List RegistryOp → Registry × List Nat
  | reg, [] => (reg, [])
  | reg, .create pairs rate :: ops =>
    ((runOps (createSub reg pairs rate).1 ops).1,
      (createSub reg pairs rate).2 :: (runOps (createSub reg pairs rate).1 ops).2)
  | reg, .cancel i :: ops => runOps (cancelSub reg i).1 ops

/-- Transcribed from `src/tf2_web_republisher_py/tf2_web_republisher_py/setup.py`:
one console-script entry point declaration `name = module:function`. -/
structure ConsoleScriptEntry where
  scriptName : String
  modulePath : String
  funcName : String
deriving DecidableEq

/-- Transcribed from `setup.py` lines 25-30: the `entry_points` argument
declares exactly this list under the `console_scripts` key. -/
def setupConsoleScripts : List ConsoleScriptEntry :=
  [⟨"tf2_web_republisher_py", "tf2_web_republisher_py.tf2_web_republisher_py", "main"⟩]

/-- Transcribed from the repository tree: the complete list of source
files present in the provided material, paths relative to the repository
root. -/
def repositoryFiles : List String :=
  ["tf2_web_republisher_py/tf2_web_republisher_py/setup.py"]

/-- Modelled from Python packaging semantics: the file that would define
the dotted module a console-script entry point refers to — the module
path with dots replaced by directory separators plus the `.py` suffix. -/
def pythonModuleFile (m : String) : String :=
  (m.replace "." "/") ++ ".py"

/-- Modelled from the spec: the scenario snapshot of §8 — edges
world→base (t=0, translation (1,0,0), identity rotation) and base→sensor
(t=0, translation (0,1,0), identity rotation), queried at time 0. -/
def snapC1 : GraphSnapshot :=
  ⟨0, [⟨"world", "base", 1, ⟨1, 0, 0⟩, 0⟩, ⟨"base", "sensor", 1, ⟨0, 1, 0⟩, 0⟩]⟩

/-- Modelled from the spec: a well-formed upstream edge used to seed
concrete store states. -/
def rawEdgeOk : RawEdge :=
  ⟨"world", "base", .fin 1, .fin 0, .fin 0, .fin 1, .fin 0, .fin 0, .fin 0, 1⟩

/-- Modelled from the spec: an upstream edge whose translation x-component
is NaN, as in the §8 malformed-ingestion scenario. -/
def rawEdgeNan : RawEdge :=
  ⟨"world", "base", .nan, .fin 0, .fin 0, .fin 1, .fin 0, .fin 0, .fin 0, 2⟩

/-- Modelled from the spec: a store holding one prior sample for the
(world, base) key. -/
def storeC4 : Store := ingest (emptyStore 16) rawEdgeOk

/-- Modelled from the spec: a concrete scheduler rate configuration. -/
def cfgC6 : SchedConfig := ⟨1, 30⟩

/-- Modelled from the spec: a subscription requesting a rate above the
configured maximum of `cfgC6`. -/
def subC6 : Subscription := ⟨0, [("world", "sensor")], 100⟩

/-- Modelled from the spec: a subscription used in the scheduler
batch-ordering scenario. -/
def subC9 : Subscription := ⟨1, [("world", "sensor")], 5⟩

/-- Modelled from the spec: the resolved transform of the §8 scenario in
the forward direction. -/
def resC1fwd : ResolvedTransform := ⟨"world", "sensor", ⟨1, ⟨1, 1, 0⟩⟩, 0, false⟩

/-- Modelled from the spec: the resolved transform of the §8 scenario in
the reverse direction. -/
def resC1rev : ResolvedTransform := ⟨"sensor", "world", ⟨1, ⟨-1, -1, 0⟩⟩, 0, false⟩

theorem quat_mul_re_comm (a b : Quat) : (a * b).re = (b * a).re := by
  simp only [Quaternion.mul_re]; ring

theorem conj_re_zero (q : Quat) (v : Vec3) : (q * v.toQuat * q⁻¹).re = 0 := by
  by_cases hq : q = 0
  · subst hq; simp
  · rw [quat_mul_re_comm, ← mul_assoc, inv_mul_cancel₀ hq, one_mul]; rfl

theorem toQuat_rotateVec (q : Quat) (v : Vec3) :
    (rotateVec q v).toQuat = q * v.toQuat * q⁻¹ := by
  ext
  · exact (conj_re_zero q v).symm
  · rfl
  · rfl
  · rfl

theorem rotateVec_mul (a b : Quat) (v : Vec3) :
    rotateVec (a * b) v = rotateVec a (rotateVec b v) := by
  have h : a * b * v.toQuat * (a * b)⁻¹ = a * (rotateVec b v).toQuat * a⁻¹ := by
    rw [toQuat_rotateVec, mul_inv_rev]
    simp only [mul_assoc]
  ext
  · exact congrArg QuaternionAlgebra.imI h
  · exact congrArg QuaternionAlgebra.imJ h
  · exact congrArg QuaternionAlgebra.imK h

theorem rotateVec_one (v : Vec3) : rotateVec 1 v = v := by
  have h : (1 : Quat) * v.toQuat * 1⁻¹ = v.toQuat := by
    rw [inv_one, one_mul, mul_one]
  ext
  · exact congrArg QuaternionAlgebra.imI h
  · exact congrArg QuaternionAlgebra.imJ h
  · exact congrArg QuaternionAlgebra.imK h

theorem toQuat_add (a b : Vec3) : (a + b).toQuat = a.toQuat + b.toQuat := by
  ext
  · show (0 : ℚ) = 0 + 0
    rw [add_zero]
  · rfl
  · rfl
  · rfl

theorem toQuat_neg (a : Vec3) : (-a).toQuat = -(a.toQuat) := by
  ext
  · show (0 : ℚ) = -0
    rw [neg_zero]
  · rfl
  · rfl
  · rfl

theorem rotateVec_add (q : Quat) (a b : Vec3) :
    rotateVec q (a + b) = rotateVec q a + rotateVec q b := by
  have h : q * (a + b).toQuat * q⁻¹ = q * a.toQuat * q⁻¹ + q * b.toQuat * q⁻¹ := by
    rw [toQuat_add, mul_add, add_mul]
  ext
  · exact congrArg QuaternionAlgebra.imI h
  · exact congrArg QuaternionAlgebra.imJ h
  · exact congrArg QuaternionAlgebra.imK h

theorem rotateVec_neg (q : Quat) (a : Vec3) :
    rotateVec q (-a) = -(rotateVec q a) := by
  have h : q * (-a).toQuat * q⁻¹ = -(q * a.toQuat * q⁻¹) := by
    rw [toQuat_neg, mul_neg, neg_mul]
  ext
  · exact congrArg QuaternionAlgebra.imI h
  · exact congrArg QuaternionAlgebra.imJ h
  · exact congrArg QuaternionAlgebra.imK h

theorem rotateVec_zero (q : Quat) : rotateVec q 0 = 0 := by
  have h0 : (0 : Vec3).toQuat = 0 := by
    ext
    · rfl
    · rfl
    · rfl
    · rfl
  have h : q * (0 : Vec3).toQuat * q⁻¹ = 0 := by
    rw [h0, mul_zero, zero_mul]
  ext
  · exact congrArg QuaternionAlgebra.imI h
  · exact congrArg QuaternionAlgebra.imJ h
  · exact congrArg QuaternionAlgebra.imK h

theorem rotateVec_cancel (q : Quat) (hq : q ≠ 0) (v : Vec3) :
    rotateVec q (rotateVec q⁻¹ v) = v := by
  rw [← rotateVec_mul, mul_inv_cancel₀ hq, rotateVec_one]

@[ext]
theorem Transform.mk_ext {a b : Transform} (h1 : a.rot = b.rot)
    (h2 : a.tr = b.tr) : a = b := by
  cases a; cases b; simp_all

theorem compose_identity_identity :
    Transform.identity.compose Transform.identity = Transform.identity := by
  refine Transform.mk_ext ?_ ?_
  · simp
  · simp [rotateVec_zero]

theorem compose_cancel (ta tb : Transform) (ha : ta.rot ≠ 0) (hb : tb.rot ≠ 0) :
    ((ta.inverse).compose tb).compose ((tb.inverse).compose ta) = Transform.identity := by
  refine Transform.mk_ext ?_ ?_
  · simp only [Transform.compose_rot, Transform.inverse_rot, Transform.identity_rot]
    rw [mul_assoc, ← mul_assoc tb.rot, mul_inv_cancel₀ hb, one_mul, inv_mul_cancel₀ ha]
  · simp only [Transform.compose_tr, Transform.compose_rot, Transform.inverse_tr,
      Transform.inverse_rot, Transform.identity_tr, rotateVec_mul, rotateVec_add,
      rotateVec_neg, rotateVec_cancel tb.rot hb]
    abel

theorem pickLatest_mem : ∀ {l : List TransformEdge} {e : TransformEdge},
    pickLatest l = some e → e ∈ l := by
  intro l
  induction l with
  | nil => intro e h; simp [pickLatest] at h
  | cons a as ih =>
    intro e h
    rw [pickLatest] at h
    cases hp : pickLatest as with
    | none =>
      rw [hp] at h
      simp only [Option.some.injEq] at h
      exact h ▸ List.mem_cons_self a as
    | some b =>
      rw [hp] at h
      simp only [Option.some.injEq] at h
      by_cases hst : b.stamp > a.stamp
      · rw [if_pos hst] at h
        exact List.mem_cons_of_mem a (h ▸ ih hp)
      · rw [if_neg hst] at h
        exact h ▸ List.mem_cons_self a as

theorem parentEdge_mem {snap : GraphSnapshot} {f : String} {e : TransformEdge}
    (h : parentEdge snap f = some e) : e ∈ snap.edges :=
  (List.mem_filter.mp (pickLatest_mem h)).1

theorem chainEdgesTo_mem (snap : GraphSnapshot) : ∀ (n : Nat) (f c : String)
    (e : TransformEdge), e ∈ chainEdgesTo snap n f c → e ∈ snap.edges := by
  intro n
  induction n with
  | zero => intro f c e h; simp [chainEdgesTo] at h
  | succ m ih =>
    intro f c e h
    rw [chainEdgesTo] at h
    by_cases hfc : f = c
    · rw [if_pos hfc] at h; simp at h
    · rw [if_neg hfc] at h
      cases hp : parentEdge snap f with
      | none => rw [hp] at h; simp at h
      | some pe =>
        rw [hp] at h
        rcases List.mem_cons.mp h with h1 | h2
        · exact h1 ▸ parentEdge_mem hp
        · exact ih pe.parent c e h2

theorem chainTransform_rot_ne (l : List TransformEdge)
    (h : ∀ e ∈ l, e.rot ≠ 0) : (chainTransform l).rot ≠ 0 := by
  induction l with
  | nil => simp [chainTransform, Transform.identity]
  | cons a as ih =>
    rw [chainTransform, Transform.compose_rot]
    exact mul_ne_zero (ih fun e he => h e (List.mem_cons_of_mem a he))
      (h a (List.mem_cons_self a as))

theorem ancestorChain_length (snap : GraphSnapshot) : ∀ (n : Nat) (f : String),
    (ancestorChain snap n f).length ≤ n := by
  intro n
  induction n with
  | zero => intro f; simp [ancestorChain]
  | succ m ih =>
    intro f
    rw [ancestorChain]
    cases hp : parentEdge snap f with
    | none => simp
    | some e => simpa using ih e.parent

theorem ancestorChain_get (snap : GraphSnapshot) : ∀ (n i : Nat) (f x : String),
    (ancestorChain snap n f).get? i = some x → iterParent snap i f = some x := by
  intro n
  induction n with
  | zero => intro i f x h; simp [ancestorChain] at h
  | succ m ih =>
    intro i f x h
    rw [ancestorChain] at h
    cases i with
    | zero =>
      simp only [List.get?_cons_zero, Option.some.injEq] at h
      rw [iterParent, h]
    | succ j =>
      rw [List.get?_cons_succ] at h
      cases hp : parentEdge snap f with
      | none => rw [hp] at h; simp at h
      | some e =>
        rw [hp] at h
        rw [iterParent, hp]
        exact ih j e.parent x h

theorem iterParent_add (snap : GraphSnapshot) : ∀ (m n : Nat) (f : String),
    iterParent snap (m + n) f = (iterParent snap m f).bind (iterParent snap n) := by
  intro m
  induction m with
  | zero =>
    intro n f
    rw [Nat.zero_add, iterParent]
    rfl
  | succ k ih =>
    intro n f
    have hidx : k + 1 + n = (k + n) + 1 := by omega
    rw [hidx, iterParent, iterParent]
    cases hp : parentEdge snap f with
    | none => rfl
    | some e => exact ih n e.parent

theorem find_index_spec {α : Type} (p : α → Bool) :
    ∀ {l : List α} {c : α}, l.find? p = some c →
      ∃ j, l.get? j = some c ∧ p c = true ∧
        ∀ k y, k < j → l.get? k = some y → p y = false := by
  intro l
  induction l with
  | nil => intro c h; simp at h
  | cons a as ih =>
    intro c h
    cases hpa : p a with
    | true =>
      rw [List.find?_cons_of_pos _ hpa] at h
      simp only [Option.some.injEq] at h
      subst h
      exact ⟨0, rfl, hpa, fun k y hk _ => absurd hk (Nat.not_lt_zero k)⟩
    | false =>
      rw [List.find?_cons_of_neg _ (by simp [hpa])] at h
      obtain ⟨j, hj, hpc, hmin⟩ := ih h
      refine ⟨j + 1, by simpa using hj, hpc, ?_⟩
      intro k y hk hky
      cases k with
      | zero =>
        simp only [List.get?_cons_zero, Option.some.injEq] at hky
        exact hky ▸ hpa
      | succ k2 =>
        rw [List.get?_cons_succ] at hky
        exact hmin k2 y (by omega) hky

theorem lca_symm (snap : GraphSnapshot) (a b c c' : String)
    (hacyc : ∀ x ∈ ancestorChain snap (walkFuel snap) a,
      ∀ d, d < 2 * walkFuel snap → 0 < d → iterParent snap d x ≠ some x)
    (h1 : lca snap a b = some c) (h2 : lca snap b a = some c') : c = c' := by
  obtain ⟨jA, hgA, hpc, hminA⟩ := find_index_spec _ h1
  obtain ⟨jB, hgB, hpc', hminB⟩ := find_index_spec _ h2
  have hcB : c ∈ ancestorChain snap (walkFuel snap) b := List.elem_iff.mp hpc
  have hc'A : c' ∈ ancestorChain snap (walkFuel snap) a := List.elem_iff.mp hpc'
  have hcA : c ∈ ancestorChain snap (walkFuel snap) a := List.get?_mem hgA
  have hc'B : c' ∈ ancestorChain snap (walkFuel snap) b := List.get?_mem hgB
  obtain ⟨kA, hkA⟩ := List.mem_iff_get?.mp hc'A
  obtain ⟨kB, hkB⟩ := List.mem_iff_get?.mp hcB
  have hkAge : ¬ kA < jA := by
    intro hlt
    have hfalse := hminA kA c' hlt hkA
    have htrue : (ancestorChain snap (walkFuel snap) b).contains c' = true :=
      List.elem_iff.mpr hc'B
    rw [htrue] at hfalse
    exact absurd hfalse (by simp)
  have hkBge : ¬ kB < jB := by
    intro hlt
    have hfalse := hminB kB c hlt hkB
    have htrue : (ancestorChain snap (walkFuel snap) a).contains c = true :=
      List.elem_iff.mpr hcA
    rw [htrue] at hfalse
    exact absurd hfalse (by simp)
  have iA1 : iterParent snap jA a = some c := ancestorChain_get snap _ jA a c hgA
  have iA2 : iterParent snap kA a = some c' := ancestorChain_get snap _ kA a c' hkA
  have iB1 : iterParent snap jB b = some c' := ancestorChain_get snap _ jB b c' hgB
  have iB2 : iterParent snap kB b = some c := ancestorChain_get snap _ kB b c hkB
  have d1 : iterParent snap (kA - jA) c = some c' := by
    have hsplit : jA + (kA - jA) = kA := by omega
    have h := iterParent_add snap jA (kA - jA) a
    rw [hsplit, iA2, iA1] at h
    exact h.symm
  have d2 : iterParent snap (kB - jB) c' = some c := by
    have hsplit : jB + (kB - jB) = kB := by omega
    have h := iterParent_add snap jB (kB - jB) b
    rw [hsplit, iB2, iB1] at h
    exact h.symm
  have dsum : iterParent snap ((kA - jA) + (kB - jB)) c = some c := by
    rw [iterParent_add, d1]
    exact d2
  have hkAlt : kA < walkFuel snap :=
    lt_of_lt_of_le (List.get?_eq_some.mp hkA).1 (ancestorChain_length snap _ a)
  have hkBlt : kB < walkFuel snap :=
    lt_of_lt_of_le (List.get?_eq_some.mp hkB).1 (ancestorChain_length snap _ b)
  rcases Nat.eq_zero_or_pos ((kA - jA) + (kB - jB)) with hz | hpos
  · have hz1 : kA - jA = 0 := by omega
    rw [hz1, iterParent] at d1
    exact Option.some.inj d1
  · exact absurd dsum (hacyc c hcA _ (by omega) hpos)

theorem resolve_self_eq (snap : GraphSnapshot) (a : String) :
    resolve snap a a = .ok ⟨a, a, Transform.identity, snap.asOf, false⟩ := by
  rw [resolve, if_pos rfl]

theorem resolve_ok_ne {snap : GraphSnapshot} {a b : String} {r : ResolvedTransform}
    (hne : a ≠ b) (h : resolve snap a b = .ok r) :
    ∃ c, lca snap a b = some c ∧
      r = ⟨a, b, resolveAt snap a b c, snap.asOf, false⟩ := by
  rw [resolve, if_neg hne] at h
  by_cases hkA : frameKnown snap a = true
  · rw [if_pos hkA] at h
    by_cases hkB : frameKnown snap b = true
    · rw [if_pos hkB] at h
      cases hl : lca snap a b with
      | none => rw [hl] at h; exact absurd h (by simp)
      | some c =>
        rw [hl] at h
        simp only [ResolveResult.ok.injEq] at h
        exact ⟨c, rfl, h.symm⟩
    · rw [if_neg hkB] at h; exact absurd h (by simp)
  · rw [if_neg hkA] at h; exact absurd h (by simp)

/-- C1: for a snapshot containing exactly the edges world→base
(timestamp 0, translation (1,0,0), identity rotation) and base→sensor
(timestamp 0, translation (0,1,0), identity rotation),
`resolve(snapshot, world, sensor)` returns a ResolvedTransform with
translation (1,1,0) and identity rotation. -/
theorem resolve_world_sensor_scenario :
    resolve snapC1 "world" "sensor" =
      .ok ⟨"world", "sensor", ⟨1, ⟨1, 1, 0⟩⟩, 0, false⟩ := by
  with_unfolding_all decide

/-- C2: for every pair of frames `a` and `b` that resolve both ways in a
snapshot whose parent walk from `a` is acyclic (the spec's connected
undirected-tree reading) and whose edges carry invertible rotations,
composing `resolve(snapshot, a, b)` with `resolve(snapshot, b, a)` yields
the identity transform — exactly, since the model replaces floating-point
numbers by exact rationals. -/
theorem resolve_roundtrip_identity (snap : GraphSnapshot) (a b : String)
    (r1 r2 : ResolvedTransform)
    (hrot : ∀ e ∈ snap.edges, e.rot ≠ 0)
    (hacyc : ∀ x ∈ ancestorChain snap (walkFuel snap) a,
      ∀ d, d < 2 * walkFuel snap → 0 < d → iterParent snap d x ≠ some x)
    (h1 : resolve snap a b = .ok r1) (h2 : resolve snap b a = .ok r2) :
    r1.transform.compose r2.transform = Transform.identity := by
  by_cases hab : a = b
  · subst hab
    rw [resolve_self_eq] at h1 h2
    simp only [ResolveResult.ok.injEq] at h1 h2
    rw [← h1, ← h2]
    exact compose_identity_identity
  · obtain ⟨c, hc, hr1⟩ := resolve_ok_ne hab h1
    obtain ⟨c', hc', hr2⟩ := resolve_ok_ne (Ne.symm hab) h2
    have hcc : c = c' := lca_symm snap a b c c' hacyc hc hc'
    subst hcc
    subst hr1
    subst hr2
    have hTA : (chainTransform (chainEdgesTo snap (walkFuel snap) a c)).rot ≠ 0 :=
      chainTransform_rot_ne _ fun e he => hrot e (chainEdgesTo_mem snap _ a c e he)
    have hTB : (chainTransform (chainEdgesTo snap (walkFuel snap) b c)).rot ≠ 0 :=
      chainTransform_rot_ne _ fun e he => hrot e (chainEdgesTo_mem snap _ b c e he)
    exact compose_cancel _ _ hTA hTB

/-- C2 witness: the roundtrip theorem applied to the concrete two-edge
scenario snapshot between the frames world and sensor. -/
theorem resolve_roundtrip_identity_witness :
    resolve snapC1 "world" "sensor" = .ok resC1fwd ∧
      resolve snapC1 "sensor" "world" = .ok resC1rev ∧
      resC1fwd.transform.compose resC1rev.transform = Transform.identity :=
  ⟨by with_unfolding_all decide, by with_unfolding_all decide,
    resolve_roundtrip_identity snapC1 "world" "sensor" resC1fwd resC1rev
      (by with_unfolding_all decide)
      (by with_unfolding_all decide)
      (by with_unfolding_all decide)
      (by with_unfolding_all decide)⟩

/-- C3: for every snapshot and every frame `a`, `resolve(snapshot, a, a)`
returns the identity transform with timestamp equal to the query time,
regardless of the snapshot's contents. -/
theorem resolve_self_identity (snap : GraphSnapshot) (a : String) :
    resolve snap a a = .ok ⟨a, a, Transform.identity, snap.asOf, false⟩ :=
  resolve_self_eq snap a

/-- C4: for every store state and every raw edge containing a non-finite
numeric component, `ingest` rejects the edge: the history of every key —
in particular the edge's own (parent, child) key — is unchanged, and a
`MalformedEdge` error is recorded; the rejection is non-fatal (`ingest`
totals to a successor store rather than failing). -/
theorem ingest_malformed_rejected (st : Store) (e : RawEdge)
    (h : e.allFinite = false) :
    (ingest st e).hist (e.parent, e.child) = st.hist (e.parent, e.child) ∧
      (ingest st e).hist = st.hist ∧
      (ingest st e).errors = .malformedEdge e.parent e.child :: st.errors := by
  rw [ingest, if_neg (by simp [h])]
  exact ⟨rfl, rfl, rfl⟩

/-- C4 witness: ingesting the NaN-translation edge into the store that
already holds one sample for the (world, base) key. -/
theorem ingest_malformed_rejected_witness :
    rawEdgeNan.allFinite = false ∧
      ((ingest storeC4 rawEdgeNan).hist (rawEdgeNan.parent, rawEdgeNan.child) =
          storeC4.hist (rawEdgeNan.parent, rawEdgeNan.child) ∧
        (ingest storeC4 rawEdgeNan).hist = storeC4.hist ∧
        (ingest storeC4 rawEdgeNan).errors =
          .malformedEdge rawEdgeNan.parent rawEdgeNan.child :: storeC4.errors) :=
  ⟨by with_unfolding_all decide,
    ingest_malformed_rejected storeC4 rawEdgeNan (by with_unfolding_all decide)⟩

theorem appendSample_pairwise {cap : Nat} {l : List Sample} {s : Sample}
    (h : l.Pairwise (fun x y => x.stamp < y.stamp)) :
    (appendSample cap l s).Pairwise (fun x y => x.stamp < y.stamp) := by
  rw [appendSample]
  by_cases hall : l.all (fun x => x.stamp < s.stamp) = true
  · rw [if_pos hall]
    rw [List.pairwise_append]
    refine ⟨?_, List.pairwise_singleton _ _, ?_⟩
    · by_cases hcap : cap ≤ l.length
      · rw [if_pos hcap]
        exact h.sublist (List.drop_sublist 1 l)
      · rw [if_neg hcap]
        exact h
    · intro x hx y hy
      rw [List.mem_singleton] at hy
      subst hy
      have hxl : x ∈ l := by
        by_cases hcap : cap ≤ l.length
        · rw [if_pos hcap] at hx
          exact List.mem_of_mem_drop hx
        · rw [if_neg hcap] at hx
          exact hx
      have := List.all_eq_true.mp hall x hxl
      simpa using this
  · rw [if_neg hall]
    exact h

/-- C5: in every reachable state of the Transform Graph Store, the stored
history of every (parent, child) key has strictly increasing timestamps
in arrival order; since reachability is closed under `ingest`, the
invariant is preserved by every ingest operation. -/
theorem store_history_increasing (st : Store) (h : ReachableStore st) :
    StoreInv st := by
  induction h with
  | init cap => intro k; simp [emptyStore]
  | step st e _ ih =>
    intro k
    rw [ingest]
    by_cases hf : e.allFinite = true
    · rw [if_pos hf]
      simp only
      by_cases hk : k = (e.parent, e.child)
      · rw [if_pos hk]
        exact appendSample_pairwise (ih (e.parent, e.child))
      · rw [if_neg hk]
        exact ih k
    · rw [if_neg hf]
      exact ih k

/-- C5 witness: the invariant holds of the concrete reachable store built
by ingesting one valid edge and then one malformed edge into the empty
store. -/
theorem store_history_increasing_witness :
    StoreInv (ingest (ingest (emptyStore 8) rawEdgeOk) rawEdgeNan) :=
  store_history_increasing _
    (ReachableStore.step _ rawEdgeNan
      (ReachableStore.step _ rawEdgeOk (ReachableStore.init 8)))

/-- C6: for every subscription whose requested rate exceeds the
configured maximum of a well-formed [min, max] bound, the scheduler
clamps the armed rate to the bound — it equals the maximum, not the
requested rate — and the subscription's actual periodic tick interval is
derived from the clamped rate. -/
theorem rate_clamped_above_max (cfg : SchedConfig) (sub : Subscription)
    (hcfg : cfg.minRate ≤ cfg.maxRate) (hr : cfg.maxRate < sub.rate) :
    armedRate cfg sub = cfg.maxRate ∧ armedRate cfg sub ≠ sub.rate ∧
      tickInterval cfg sub = 1 / cfg.maxRate := by
  have h1 : armedRate cfg sub = cfg.maxRate := by
    rw [armedRate, clampRate, min_eq_left (le_of_lt hr), max_eq_right hcfg]
  refine ⟨h1, ?_, ?_⟩
  · rw [h1]
    exact ne_of_lt hr
  · rw [tickInterval, h1]

/-- C6 witness: the configuration [1, 30] with a subscription requesting
rate 100. -/
theorem rate_clamped_above_max_witness :
    cfgC6.minRate ≤ cfgC6.maxRate ∧ cfgC6.maxRate < subC6.rate ∧
      (armedRate cfgC6 subC6 = cfgC6.maxRate ∧
        armedRate cfgC6 subC6 ≠ subC6.rate ∧
        tickInterval cfgC6 subC6 = 1 / cfgC6.maxRate) :=
  ⟨by norm_num [cfgC6], by norm_num [cfgC6, subC6],
    rate_clamped_above_max cfgC6 subC6 (by norm_num [cfgC6])
      (by norm_num [cfgC6, subC6])⟩

/-- C7: cancel is idempotent — for every registry state and id, a second
`cancel` of the same id is a no-op: it returns the state unchanged and
performs no teardown side effects (so cancelling a non-existent or
already-cancelled id raises no error, and two cancels in succession equal
one). -/
theorem cancel_idempotent (reg : Registry) (i : Nat) :
    cancelSub (cancelSub reg i).1 i = ((cancelSub reg i).1, []) := by
  have hnone : ((cancelSub reg i).1).subs.any (fun s => s.id == i) = false := by
    rw [cancelSub]
    by_cases hany : reg.subs.any (fun s => s.id == i) = true
    · rw [if_pos hany]
      simp only
      rw [List.any_eq_false]
      intro s hs
      have h2 := (List.mem_filter.mp hs).2
      simp only [bne_iff_ne, ne_eq] at h2
      simp [h2]
    · rw [if_neg hany]
      simp only
      exact Bool.not_eq_true _ |>.mp hany
  rw [cancelSub, hnone]
  simp

/-- C8: within one process lifetime, any two `create` calls on the
Subscription Registry return distinct subscription ids — the list of ids
issued by any operation sequence from the initial registry has no
duplicates, even when cancels are interleaved. -/
theorem subscription_ids_unique (ops : List RegistryOp) :
    ((runOps initialRegistry ops).2).Nodup := by
  have hlb : ∀ (l : List RegistryOp) (reg : Registry) (i : Nat),
      i ∈ (runOps reg l).2 → reg.nextId ≤ i := by
    intro l
    induction l with
    | nil => intro reg i h; simp [runOps] at h
    | cons op ops2 ih =>
      intro reg i h
      cases op with
      | create pairs rate =>
        rw [runOps] at h
        rcases List.mem_cons.mp h with h1 | h2
        · exact le_of_eq h1.symm
        · have := ih (createSub reg pairs rate).1 i h2
          rw [createSub] at this
          simp only at this
          omega
      | cancel j =>
        rw [runOps] at h
        have := ih (cancelSub reg j).1 i h
        have hnid : (cancelSub reg j).1.nextId = reg.nextId := by
          rw [cancelSub]
          by_cases hany : reg.subs.any (fun s => s.id == j) = true
          · rw [if_pos hany]
          · rw [if_neg hany]
        rw [hnid] at this
        exact this
  have hsorted : ∀ (l : List RegistryOp) (reg : Registry),
      ((runOps reg l).2).Pairwise (· < ·) := by
    intro l
    induction l with
    | nil => intro reg; simp [runOps]
    | cons op ops2 ih =>
      intro reg
      cases op with
      | create pairs rate =>
        rw [runOps]
        refine List.Pairwise.cons ?_ (ih _)
        intro j hj
        have h2 := hlb ops2 (createSub reg pairs rate).1 j hj
        simp only [createSub] at h2 ⊢
        omega
      | cancel j =>
        rw [runOps]
        exact ih _
  exact (hsorted ops initialRegistry).imp Nat.ne_of_lt

theorem runTicks_stamp_lb (snapAt : ℚ → GraphSnapshot) (sub : Subscription)
    (period : ℚ) (hp : 0 < period) : ∀ (flags : List Bool) (t : ℚ) (b : Batch),
      b ∈ runTicks snapAt sub period t flags → t ≤ b.stamp := by
  intro flags
  induction flags with
  | nil => intro t b h; simp [runTicks] at h
  | cons f fs ih =>
    intro t b h
    rw [runTicks] at h
    rcases List.mem_append.mp h with h1 | h2
    · cases f with
      | true =>
        rw [if_pos rfl] at h1
        rw [List.mem_singleton] at h1
        subst h1
        exact le_refl t
      | false => simp at h1
    · have := ih (t + period) b h2
      linarith

/-- C9: for every single subscription, the sequence of batches the
scheduler emits has strictly increasing timestamps — whatever
accept/backpressure answers the sink gives, a later batch never carries a
timestamp at or below an earlier one. -/
theorem batch_stamps_increasing (snapAt : ℚ → GraphSnapshot)
    (sub : Subscription) (period t : ℚ) (flags : List Bool)
    (hp : 0 < period) :
    (runTicks snapAt sub period t flags).Pairwise
      (fun b1 b2 => b1.stamp < b2.stamp) := by
  induction flags generalizing t with
  | nil => simp [runTicks]
  | cons f fs ih =>
    rw [runTicks]
    cases f with
    | false => simpa using ih (t + period)
    | true =>
      rw [if_pos rfl]
      rw [List.singleton_append]
      refine List.Pairwise.cons ?_ (ih (t + period))
      intro b hb
      have := runTicks_stamp_lb snapAt sub period hp fs (t + period) b hb
      simp only
      linarith

/-- C9 witness: three ticks with a backpressure drop on the middle one,
starting at time 0 with period 1. -/
theorem batch_stamps_increasing_witness :
    (0 : ℚ) < 1 ∧
      (runTicks (fun _ => snapC1) subC9 1 0 [true, false, true]).Pairwise
        (fun b1 b2 => b1.stamp < b2.stamp) :=
  ⟨by norm_num,
    batch_stamps_increasing (fun _ => snapC1) subC9 1 0 [true, false, true]
      (by norm_num)⟩

set_option maxRecDepth 8192 in
/-- C10: the packaging manifest declares exactly one console-script entry
point, `tf2_web_republisher_py`, referring to the function `main` in the
module `tf2_web_republisher_py.tf2_web_republisher_py`; no file of the
repository can implement that module — the only source file present is
the manifest itself — so the declared entry point has no implementation
in the provided material. -/
theorem entry_point_has_no_implementation :
    setupConsoleScripts =
      [⟨"tf2_web_republisher_py", "tf2_web_republisher_py.tf2_web_republisher_py",
        "main"⟩] ∧
      setupConsoleScripts.length = 1 ∧
      (repositoryFiles.all fun f =>
        !(f.endsWith
          (pythonModuleFile "tf2_web_republisher_py.tf2_web_republisher_py"))) = true ∧
      (repositoryFiles.all fun f =>
        !(f.endsWith "/__init__.py")) = true ∧
      repositoryFiles =
        ["tf2_web_republisher_py/tf2_web_republisher_py/setup.py"] := by
  refine ⟨rfl, rfl, ?_, ?_, rfl⟩
  · with_unfolding_all decide
  · with_unfolding_all decide

end TfWeb
